import Mathlib

/-!
# Verification of the glids GitLab client engine

This file gives a shallow embedding of the core fetch/population engine of
`internal/gitlab/client.go` and proves properties of it.

Modelling conventions:
* Go errors are modelled as their message strings (the source compares errors
  by `err.Error() == "operation cancelled by user"`, i.e. by message string,
  and wraps with `fmt.Errorf("...: %w", err)`, i.e. by string prefixing).
* `strings.ToLower` is modelled by mapping `lowChar` (the ASCII case folding
  of `Char.toLower`; agrees with Go on ASCII input).
* Go's `<` on strings (byte-lexicographic on UTF-8) is modelled by a
  code-point lexicographic comparison `lexLt` (UTF-8 byte order coincides with
  code-point order).
* `sort.SliceStable` is modelled by `List.insertionSort` with the reflexive
  closure of the comparison; a stable sort is uniquely determined by the
  comparison, and sortedness plus stability are proved below.
* HTTP interactions are abstracted into environments: a count probe result,
  a page-fetch function, and a confirmation policy; calls are recorded in an
  event trace.
-/

namespace Glids
/-- `Project` from `internal/gitlab/models.go`. -/
structure Project where
  id : Int
  pathWithNamespace : String
  name : String
deriving DecidableEq, Repr

/-- `Group` from `internal/gitlab/models.go` (recursive via `Subgroups`). -/
inductive Group where
  | mk (id : Int) (parentID : Option Int) (fullPath : String) (name : String)
       (subgroups : List Group) (projects : List Project)

def Group.id : Group → Int
  | .mk i _ _ _ _ _ => i

def Group.parentID : Group → Option Int
  | .mk _ p _ _ _ _ => p

def Group.fullPath : Group → String
  | .mk _ _ f _ _ _ => f

def Group.name : Group → String
  | .mk _ _ _ n _ _ => n

def Group.subgroups : Group → List Group
  | .mk _ _ _ _ s _ => s

def Group.projects : Group → List Project
  | .mk _ _ _ _ _ p => p

/-- `group.Projects = projects` (field assignment on the pointed-to struct). -/
def Group.setProjects : Group → List Project → Group
  | .mk i pa f n s _, p => .mk i pa f n s p

/-- `group.Subgroups = ...` (field assignment on the pointed-to struct). -/
def Group.setSubgroups : Group → List Group → Group
  | .mk i pa f n _ p, s => .mk i pa f n s p

/-- The Go zero value of `Group` (`make([]Group, n)` fills with these). -/
def Group.zero : Group := .mk 0 none "" "" [] []

/-- The cancellation error message produced by
`fmt.Errorf("operation cancelled by user")` and tested by string identity. -/
def cancelMsg : String := "operation cancelled by user"

/-! ## Case-folded lexicographic comparison (Go `strings.ToLower` + `<`) -/

/-- Strict byte/code-point lexicographic order on character lists, modelling
Go's `<` on strings. -/

def lexLt : List Char → List Char → Bool
  | [], [] => false
  | [], _ :: _ => true
  | _ :: _, [] => false
  | c :: cs, d :: ds =>
    if c.toNat < d.toNat then true
    else if d.toNat < c.toNat then false
    else lexLt cs ds

/-- `lexLe a b = !(lexLt b a)`: the non-strict order used to state sortedness
of the result of `sort.SliceStable(x, less)` (for `i < j`, `!less(x[j], x[i])`). -/
def lexLe : List Char → List Char → Bool
  | [], _ => true
  | _ :: _, [] => false
  | c :: cs, d :: ds =>
    if c.toNat < d.toNat then true
    else if d.toNat < c.toNat then false
    else lexLe cs ds

/-- Case folding of one character, as in `Char.toLower` (ASCII letters;
agrees with Go's `strings.ToLower` on ASCII input). -/
def lowChar (c : Char) : Char :=
  if c.toNat ≥ 65 ∧ c.toNat ≤ 90 then Char.ofNat (c.toNat + 32) else c

/-- Case-folded sort key: `strings.ToLower(name)` as a character list. -/
def lowKey (s : String) : List Char := s.data.map lowChar

/-- The subgroup comparison of `PopulateGroupHierarchy`'s first
`sort.SliceStable` (non-strict form). -/
def leGroup (a b : Group) : Prop := lexLe (lowKey a.name) (lowKey b.name) = true

/-- The project comparison of `PopulateGroupHierarchy`'s second
`sort.SliceStable` (non-strict form). -/
def leProject (a b : Project) : Prop := lexLe (lowKey a.name) (lowKey b.name) = true

instance : DecidableRel leGroup := fun a b => inferInstanceAs (Decidable (_ = true))

instance : DecidableRel leProject := fun a b => inferInstanceAs (Decidable (_ = true))

/-- `sort.SliceStable(group.Subgroups, ...)`: the unique stable sort for the
case-folded name comparison, realised by insertion sort. -/
def sortGroups (l : List Group) : List Group := List.insertionSort leGroup l

/-- `sort.SliceStable(group.Projects, ...)`. -/
def sortProjects (l : List Project) : List Project := List.insertionSort leProject l

/-- The sorting step at the end of `PopulateGroupHierarchy` (lines 588-594). -/
def Group.sortChildren (g : Group) : Group :=
  (g.setSubgroups (sortGroups g.subgroups)).setProjects (sortProjects g.projects)

/-! ## Hierarchy populator (`PopulateGroupHierarchy`)

The two per-group fetchers are abstracted as an oracle from group ID to
result (list of items, or an error string); each call is recorded as an event
so that traversal order and early stopping can be stated. -/

/-- The remote side as seen by `PopulateGroupHierarchy`: the results of
`getProjectsForGroup` and `getSubgroups` for each group ID. -/

structure Remote where
  projectsFor : Int → Except String (List Project)
  subgroupsFor : Int → Except String (List Group)

/-- One fetch performed during hierarchy population, with its result. -/
inductive FetchEvent where
  | projects (gid : Int) (res : Except String (List Project))
  | subgroups (gid : Int) (res : Except String (List Group))

/-- Whether a fetch returned the cancellation error (the source tests
`err.Error() == "operation cancelled by user"`). -/
def FetchEvent.isCancel : FetchEvent → Bool
  | .projects _ (.error e) => e = cancelMsg
  | .subgroups _ (.error e) => e = cancelMsg
  | _ => false

/-- `fmt.Errorf("failed getting projects for group %d: %w", group.ID, err)`. -/
def wrapProjErr (gid : Int) (e : String) : String :=
  "failed getting projects for group " ++ (toString gid ++ (": " ++ e))

/-- `fmt.Errorf("failed getting subgroups for group %d: %w", group.ID, err)`. -/
def wrapSubErr (gid : Int) (e : String) : String :=
  "failed getting subgroups for group " ++ (toString gid ++ (": " ++ e))

/-- `fmt.Errorf("failed to populate subgroup %s: %w", currentSubgroup.Name, err)`. -/
def wrapChildErr (nm : String) (e : String) : String :=
  "failed to populate subgroup " ++ (nm ++ (": " ++ e))

/-- `if firstError == nil { firstError = ... }`. -/
def firstSome (a b : Option String) : Option String :=
  match a with
  | some x => some x
  | none => b

/-- First phase of `PopulateGroupHierarchy` (lines 535-549): handle the
projects fetch result. `none` means the cancellation early-return was taken;
otherwise the (possibly updated) group and the recorded first error. -/
def projStep (g : Group) (res : Except String (List Project)) :
    Option (Group × Option String) :=
  match res with
  | .error e => if e = cancelMsg then none else some (g, some (wrapProjErr g.id e))
  | .ok projs => some (g.setProjects projs, none)

mutual

/-- `PopulateGroupHierarchy` (lines 530-597) on one node, with fuel for the
recursion. Returns the group as mutated at return time, the returned error
(`none` = nil), and the trace of fetches; `none` = out of fuel. -/
def popNode (remote : Remote) : Nat → Group → Option (Group × Option String × List FetchEvent)
  | 0, _ => none
  | n + 1, g =>
    let pRes := remote.projectsFor g.id
    let ev1 := FetchEvent.projects g.id pRes
    match projStep g pRes with
    | none => some (g, some cancelMsg, [ev1])
    | some (g1, fe) =>
      let sRes := remote.subgroupsFor g.id
      let ev2 := FetchEvent.subgroups g.id sRes
      match sRes with
      | .error e =>
        if e = cancelMsg then some (g1, some cancelMsg, [ev1, ev2])
        else some (g1, some (fe.getD (wrapSubErr g.id e)), [ev1, ev2])
      | .ok subs =>
        match popChildren remote n subs with
        | none => none
        | some (kids, cfe, cancelled, trc) =>
          let g2 := g1.setSubgroups kids
          if cancelled then some (g2, some cancelMsg, ev1 :: ev2 :: trc)
          else some (g2.sortChildren, firstSome fe cfe, ev1 :: ev2 :: trc)

/-- The subgroup loop of `PopulateGroupHierarchy` (lines 569-586). Returns the
contents of `group.Subgroups` after the loop (zero values where the loop
stopped early), the first recorded child error (already wrapped), whether a
cancellation caused an early return, and the trace. -/
def popChildren (remote : Remote) : Nat → List Group → Option (List Group × Option String × Bool × List FetchEvent)
  | _, [] => some ([], none, false, [])
  | 0, _ :: _ => none
  | n + 1, g :: gs =>
    match popNode remote n g with
    | none => none
    | some (g', err, tr) =>
      if err = some cancelMsg then
        some (Group.zero :: gs.map (fun _ => Group.zero), none, true, tr)
      else
        match popChildren remote n gs with
        | none => none
        | some (rest, cfe, cancelled, tr2) =>
          some (g' :: rest, firstSome (err.map (wrapChildErr g'.name)) cfe, cancelled, tr ++ tr2)

end

/-! ## Cancellation propagation (machinery for the trace analysis) -/

/-- No fetch in the trace returned the cancellation error. -/

def cleanTrace (tr : List FetchEvent) : Prop := ∀ e ∈ tr, e.isCancel = false

/-- The trace ends with the (unique) cancelled fetch: nothing was fetched
after the cancellation. -/
def cancelEnded (tr : List FetchEvent) : Prop :=
  ∃ pre e, tr = pre ++ [e] ∧ e.isCancel = true ∧ ∀ x ∈ pre, x.isCancel = false

/-- Every node of the tree has its subgroup and project slices non-decreasing
under the case-folded name comparison. -/
inductive SortedTree : Group → Prop where
  | intro (g : Group)
      (hs : List.Pairwise leGroup g.subgroups)
      (hp : List.Pairwise leProject g.projects)
      (hrec : ∀ s, s ∈ g.subgroups → SortedTree s) : SortedTree g

/-! ## Concrete scenarios for the hierarchy-populator claims -/

/-- C1 counterexample input: the projects fetch succeeds (out of order), the
subgroups fetch fails with a non-cancellation error, so `PopulateGroupHierarchy`
returns at line 564 before the sorting step. -/

def remoteCx : Remote where
  projectsFor := fun _ => .ok [⟨1, "g/b", "b"⟩, ⟨2, "g/a", "a"⟩]
  subgroupsFor := fun _ => .error "boom"

def gCxIn : Group := .mk 1 none "g" "g" [] []

def remoteW1 : Remote where
  projectsFor := fun _ => .ok [⟨1, "g/B", "B"⟩, ⟨2, "g/a", "a"⟩]
  subgroupsFor := fun _ => .ok []

def gW1In : Group := .mk 1 none "g" "g" [] []

def gW1Out : Group := .mk 1 none "g" "g" [] [⟨2, "g/a", "a"⟩, ⟨1, "g/B", "B"⟩]

/-- C2 witness scenario: the projects fetch of the first subgroup (depth 1) is
cancelled; its sibling (ID 3) is never fetched. -/
def remoteC2 : Remote where
  projectsFor := fun gid => if gid = 2 then .error cancelMsg else .ok []
  subgroupsFor := fun gid =>
    if gid = 1 then .ok [Group.mk 2 none "r/a" "a" [] [], Group.mk 3 none "r/b" "b" [] []]
    else .ok []

def rootC2 : Group := .mk 1 none "r" "r" [] []

def trC2 : List FetchEvent :=
  [.projects 1 (.ok []),
   .subgroups 1 (.ok [Group.mk 2 none "r/a" "a" [] [], Group.mk 3 none "r/b" "b" [] []]),
   .projects 2 (.error cancelMsg)]

/-- C3 scenario: a group with one project and two subgroups, the first of
which fails during recursive population with a non-cancellation error. -/
def remoteC3 : Remote where
  projectsFor := fun gid =>
    if gid = 1 then .ok [⟨10, "r/p1", "p1"⟩]
    else if gid = 3 then .ok [⟨30, "r/b/p3", "p3"⟩]
    else .ok []
  subgroupsFor := fun gid =>
    if gid = 1 then .ok [Group.mk 2 none "r/a" "a" [] [], Group.mk 3 none "r/b" "b" [] []]
    else if gid = 2 then .error "boom"
    else .ok []

def rootC3 : Group := .mk 1 none "r" "r" [] []

/-- The tree returned in the C3 scenario: the project is present, the failed
subgroup is present but unpopulated, the surviving subgroup is fully
populated. -/
def treeC3 : Group :=
  .mk 1 none "r" "r"
    [Group.mk 2 none "r/a" "a" [] [],
     Group.mk 3 none "r/b" "b" [] [⟨30, "r/b/p3", "p3"⟩]]
    [⟨10, "r/p1", "p1"⟩]

/-! ## Flat fetchers: confirmation gate, pagination, list endpoints

HTTP interaction is abstracted into environments: the count probe result, the
page-fetch function for each page number (and search term, for groups), and
the pluggable confirmation policy `confirmFn`, plus the state of the
pause-status channel. Requests and confirmation calls are recorded as events. -/

/-- An observable action of a flat fetcher. -/

inductive Ev where
  | probe (tag : String)
  | page (tag : String) (n : Nat)
  | pauseSig
  | confirmCall (prompt : String)
  | resumeSig
deriving DecidableEq, Repr

def Ev.isConfirm : Ev → Bool
  | .confirmCall _ => true
  | _ => false

def Ev.isPage : Ev → Bool
  | .page _ _ => true
  | _ => false

def Ev.isPageOne : Ev → Bool
  | .page _ 1 => true
  | _ => false

/-- The confirmation-policy side of a `Client`: `confirmFn`, whether
`pauseStatus` is non-nil, and whether the non-blocking channel sends succeed. -/
structure ConfirmEnv where
  confirm : String → Bool
  hasPause : Bool
  pauseSendOk : Bool
  resumeSendOk : Bool

/-- `const largeFetchThreshold = 50` (line 19). -/
def largeFetchThreshold : Int := 50

/-- `fmt.Sprintf("This operation will fetch %d %s. Continue?", totalCount, resourceDescription)`. -/
def confirmPrompt (desc : String) (count : Int) : String :=
  "This operation will fetch " ++ (toString count ++ (" " ++ (desc ++ ". Continue?")))

/-- `confirmLargeFetch` (lines 130-183): returns whether to proceed, plus the
observable actions (pause signal, confirmation call, resume signal). -/
def confirmLargeFetch (env : ConfirmEnv) (desc : String) (count : Int) : Bool × List Ev :=
  if count ≤ largeFetchThreshold then (true, [])
  else
    let didPause := env.hasPause && env.pauseSendOk
    let pauseEvs := if didPause then [Ev.pauseSig] else []
    let prompt := confirmPrompt desc count
    if env.confirm prompt then
      (true, pauseEvs ++ [Ev.confirmCall prompt] ++
        (if didPause && env.resumeSendOk then [Ev.resumeSig] else []))
    else
      (false, pauseEvs ++ [Ev.confirmCall prompt])

/-- The page loop shared by all four flat fetchers (`page := 1; for { ... }`):
request consecutive pages from `page`, accumulating into `acc`, until an
error or an empty page. `none` = page-loop fuel exhausted (the Go loop is
unbounded). -/
def paginate {α : Type} (fetch : Nat → Except String (List α)) (mkEv : Nat → Ev) :
    Nat → Nat → List α → Option (Except String (List α) × List Ev)
  | 0, _, _ => none
  | f + 1, page, acc =>
    match fetch page with
    | .error e => some (.error e, [mkEv page])
    | .ok items =>
      if items.isEmpty then some (.ok acc, [mkEv page])
      else
        match paginate fetch mkEv f (page + 1) (acc ++ items) with
        | none => none
        | some (r, evs) => some (r, mkEv page :: evs)

/-- Go `strings.Contains` (substring test), on character lists. -/
def charsContains (hay sub : List Char) : Bool :=
  hay.tails.any (fun t => sub.isPrefixOf t)

/-- Environment of `GetProjects`: the count probe (`CheckResourceCount
"projects"`, which never sends the search term), the page requests (whose URL
never carries the search term), and the gate. -/
structure ProjEnv where
  gate : ConfirmEnv
  probe : Except String Int
  pages : Nat → Except String (List Project)

/-- The count-check/confirmation prologue of `GetProjects` (lines 294-306).
`.error cancelMsg` = the user declined. -/
def projectsGate (env : ProjEnv) (allProjects : Bool) : Except String Unit × List Ev :=
  if allProjects then
    match env.probe with
    | .error _ => (.ok (), [.probe "projects"])
    | .ok total =>
      match confirmLargeFetch env.gate "projects" total with
      | (true, cevs) => (.ok (), .probe "projects" :: cevs)
      | (false, cevs) => (.error cancelMsg, .probe "projects" :: cevs)
  else (.ok (), [])

/-- The client-side filter of `GetProjects` (lines 333-343). -/
def projFilter (s : String) (l : List Project) : List Project :=
  l.filter (fun p => charsContains (lowKey p.pathWithNamespace) (lowKey s))

/-- `GetProjects` (lines 292-346). `none` = page-loop fuel exhausted. -/
def GetProjects (env : ProjEnv) (pfuel : Nat) (searchTerm : String) (allProjects : Bool) :
    Option (Except String (List Project) × List Ev) :=
  match projectsGate env allProjects with
  | (.error e, evs) => some (.error e, evs)
  | (.ok _, evs) =>
    match paginate env.pages (fun n => .page "projects" n) pfuel 1 [] with
    | none => none
    | some (.error e, pevs) => some (.error e, evs ++ pevs)
    | some (.ok acc, pevs) =>
      if searchTerm ≠ "" then some (.ok (projFilter searchTerm acc), evs ++ pevs)
      else some (.ok acc, evs ++ pevs)

/-- Environment of `GetGroups`: probe and pages depend on the search term
(both send it server-side when non-empty). -/
structure GroupsEnv where
  gate : ConfirmEnv
  probe : String → Except String Int
  pages : String → Nat → Except String (List Group)

/-- An apostrophe (U+0027), as used in the group resource description. -/
def squote : String := String.singleton (Char.ofNat 39)

/-- The resource description of the groups gate (lines 361-364). -/
def groupsDesc (s : String) : String :=
  if s ≠ "" then "groups matching " ++ (squote ++ (s ++ squote)) else "groups"

/-- The count-check/confirmation prologue of `GetGroups` (lines 354-370). -/
def groupsGate (env : GroupsEnv) (allGroups : Bool) (s : String) : Except String Unit × List Ev :=
  if allGroups then
    match env.probe s with
    | .error _ => (.ok (), [.probe ("groups " ++ s)])
    | .ok total =>
      match confirmLargeFetch env.gate (groupsDesc s) total with
      | (true, cevs) => (.ok (), .probe ("groups " ++ s) :: cevs)
      | (false, cevs) => (.error cancelMsg, .probe ("groups " ++ s) :: cevs)
  else (.ok (), [])

/-- The client-side fallback filter of `GetGroups` (lines 414-420). -/
def groupFilter (s : String) (l : List Group) : List Group :=
  l.filter (fun g => charsContains (lowKey g.fullPath) (lowKey s))

/-- `fmt.Errorf("error fetching groups for manual filtering: %w", err)`. -/
def fallbackWrap (e : String) : String :=
  "error fetching groups for manual filtering: " ++ e

/-- `GetGroups` (lines 350-426). The first `Nat` after `pfuel` is recursion
fuel for the fallback self-call; `none` = fuel exhausted. -/
def GetGroups (env : GroupsEnv) (pfuel : Nat) :
    Nat → String → Bool → Option (Except String (List Group) × List Ev)
  | 0, _, _ => none
  | rf + 1, s, allGroups =>
    match groupsGate env allGroups s with
    | (.error e, evs) => some (.error e, evs)
    | (.ok _, evs) =>
      match paginate (env.pages s) (fun n => .page ("groups " ++ s) n) pfuel 1 [] with
      | none => none
      | some (.error e, pevs) => some (.error e, evs ++ pevs)
      | some (.ok acc, pevs) =>
        if s ≠ "" ∧ acc.isEmpty then
          match GetGroups env pfuel rf "" allGroups with
          | none => none
          | some (.error e, tr2) =>
            if e = cancelMsg then some (.error e, evs ++ pevs ++ tr2)
            else some (.error (fallbackWrap e), evs ++ pevs ++ tr2)
          | some (.ok gs, tr2) => some (.ok (groupFilter s gs), evs ++ pevs ++ tr2)
        else some (.ok acc, evs ++ pevs)

/-- Environment of a per-group fetcher (`getSubgroups`, `getProjectsForGroup`)
for one group ID: its probe, its pages, and the gate. -/
structure ScopedEnv (α : Type) where
  gate : ConfirmEnv
  probe : Except String Int
  pages : Nat → Except String (List α)

/-- `getSubgroups` (lines 430-476). The probe request is always made; the
confirmation gate runs only when the probe succeeded and `allGroups` is set.
Page errors are wrapped with the group ID. -/
def getSubgroups (env : ScopedEnv Group) (gid : Int) (pfuel : Nat) (allGroups : Bool) :
    Option (Except String (List Group) × List Ev) :=
  let tag := "subgroups " ++ toString gid
  let gateRes : Except String Unit × List Ev :=
    match env.probe with
    | .error _ => (.ok (), [.probe tag])
    | .ok total =>
      if allGroups then
        match confirmLargeFetch env.gate ("subgroups for group " ++ toString gid) total with
        | (true, cevs) => (.ok (), .probe tag :: cevs)
        | (false, cevs) => (.error cancelMsg, .probe tag :: cevs)
      else (.ok (), [.probe tag])
  match gateRes with
  | (.error e, evs) => some (.error e, evs)
  | (.ok _, evs) =>
    match paginate env.pages (fun n => .page tag n) pfuel 1 [] with
    | none => none
    | some (.error e, pevs) =>
      some (.error ("error fetching subgroups for group " ++ (toString gid ++ (": " ++ e))),
        evs ++ pevs)
    | some (.ok acc, pevs) => some (.ok acc, evs ++ pevs)

/-- `getProjectsForGroup` (lines 480-526), same structure as `getSubgroups`. -/
def getProjectsForGroup (env : ScopedEnv Project) (gid : Int) (pfuel : Nat) (allProjects : Bool) :
    Option (Except String (List Project) × List Ev) :=
  let tag := "groupprojects " ++ toString gid
  let gateRes : Except String Unit × List Ev :=
    match env.probe with
    | .error _ => (.ok (), [.probe tag])
    | .ok total =>
      if allProjects then
        match confirmLargeFetch env.gate ("projects for group " ++ toString gid) total with
        | (true, cevs) => (.ok (), .probe tag :: cevs)
        | (false, cevs) => (.error cancelMsg, .probe tag :: cevs)
      else (.ok (), [.probe tag])
  match gateRes with
  | (.error e, evs) => some (.error e, evs)
  | (.ok _, evs) =>
    match paginate env.pages (fun n => .page tag n) pfuel 1 [] with
    | none => none
    | some (.error e, pevs) =>
      some (.error ("error fetching projects for group " ++ (toString gid ++ (": " ++ e))),
        evs ++ pevs)
    | some (.ok acc, pevs) => some (.ok acc, evs ++ pevs)

/-! ## Concrete environments for the flat-fetcher claims -/

def envC4 : ConfirmEnv := ⟨fun _ => true, true, true, true⟩

def fetchC8 : Nat → Except String (List Nat) := fun p =>
  if p = 1 then .ok (List.range 100)
  else if p = 2 then .ok ((List.range 100).map (fun x => x + 100))
  else if p = 3 then .ok ((List.range 37).map (fun x => x + 200))
  else .ok []

def envC7 : ProjEnv where
  gate := ⟨fun _ => true, false, false, false⟩
  probe := .ok 3
  pages := fun p =>
    if p = 1 then
      .ok [⟨1, "teamA/app", "app"⟩, ⟨2, "teamB/App2", "App2"⟩, ⟨3, "x/teamAthing", "t"⟩]
    else .ok []

def envC5 : GroupsEnv where
  gate := ⟨fun _ => false, false, false, false⟩
  probe := fun _ => .ok 120
  pages := fun _ _ => .ok []

def envC6 : GroupsEnv where
  gate := ⟨fun _ => true, false, false, false⟩
  probe := fun _ => .ok 2
  pages := fun s p =>
    if s = "" then
      if p = 1 then
        .ok [Group.mk 1 none "team/platform" "platform" [] [],
             Group.mk 2 none "team/other" "other" [] []]
      else .ok []
    else .ok []

def pagesC9 : Nat → Except String (List Project) := fun p =>
  if p = 1 then .ok [⟨1, "a/x", "x"⟩] else .ok []

def envC9a : ProjEnv := ⟨⟨fun _ => false, false, false, false⟩, .error "probe down", pagesC9⟩

def envC9b : ProjEnv := ⟨⟨fun _ => true, true, true, true⟩, .error "other failure", pagesC9⟩

def gPagesC9 : String → Nat → Except String (List Group) := fun _ p =>
  if p = 1 then .ok [Group.mk 1 none "a" "a" [] []] else .ok []

def envC9c : GroupsEnv := ⟨⟨fun _ => false, false, false, false⟩, fun _ => .error "down", gPagesC9⟩

def envC9d : GroupsEnv := ⟨⟨fun _ => true, true, true, true⟩, fun _ => .error "askew", gPagesC9⟩

def sPagesC9 : Nat → Except String (List Group) := fun _ => .ok []

def envC9e : ScopedEnv Group := ⟨⟨fun _ => false, false, false, false⟩, .error "down", sPagesC9⟩

def envC9f : ScopedEnv Group := ⟨⟨fun _ => true, true, true, true⟩, .error "askew", sPagesC9⟩

def pPagesC9 : Nat → Except String (List Project) := fun _ => .ok []

def envC9g : ScopedEnv Project := ⟨⟨fun _ => false, false, false, false⟩, .error "down", pPagesC9⟩

def envC9h : ScopedEnv Project := ⟨⟨fun _ => true, true, true, true⟩, .error "askew", pPagesC9⟩

def envC10 : GroupsEnv where
  gate := ⟨fun _ => true, false, false, false⟩
  probe := fun _ => .ok 3
  pages := fun s p =>
    if s = "" then
      if p = 1 then .ok [Group.mk 1 none "q/x" "x" [] []] else .ok []
    else .ok []

/-! ## Theorems -/

theorem lexLe_eq_not_lexLt : ∀ a b, lexLe a b = !(lexLt b a)
  | [], [] => rfl
  | [], _ :: _ => rfl
  | _ :: _, [] => rfl
  | c :: cs, d :: ds => by
    simp only [lexLe, lexLt]
    rcases Nat.lt_trichotomy c.toNat d.toNat with h | h | h
    · simp [h, Nat.lt_asymm h]
    · simp [h, Nat.lt_irrefl, lexLe_eq_not_lexLt cs ds]
    · simp [h, Nat.lt_asymm h]

theorem lexLe_refl : ∀ a, lexLe a a = true
  | [] => rfl
  | c :: cs => by simp [lexLe, lexLe_refl cs]

theorem lexLe_total : ∀ a b, lexLe a b = true ∨ lexLe b a = true
  | [], _ => .inl rfl
  | _ :: _, [] => .inr rfl
  | c :: cs, d :: ds => by
    simp only [lexLe]
    rcases Nat.lt_trichotomy c.toNat d.toNat with h | h | h
    · simp [h, Nat.lt_asymm h]
    · simpa [h, Nat.lt_irrefl] using lexLe_total cs ds
    · simp [h, Nat.lt_asymm h]

theorem lexLe_trans : ∀ a b c, lexLe a b = true → lexLe b c = true → lexLe a c = true
  | [], _, c => fun _ _ => by cases c <;> rfl
  | _ :: _, [], _ => fun h _ => by cases h
  | _ :: _, _ :: _, [] => fun _ h => by cases h
  | a :: as, b :: bs, c :: cs => by
    simp only [lexLe]
    generalize a.toNat = x
    generalize b.toNat = y
    generalize c.toNat = z
    intro hab hbc
    split_ifs at hab hbc ⊢ <;>
      first
        | rfl
        | (exact lexLe_trans as bs cs hab hbc)
        | (exact Bool.noConfusion hab)
        | (exact Bool.noConfusion hbc)
        | (exfalso; omega)

theorem cleanTrace_nil : cleanTrace [] := fun _ h => absurd h (List.not_mem_nil _)

theorem cleanTrace_append {a b : List FetchEvent} (ha : cleanTrace a) (hb : cleanTrace b) :
    cleanTrace (a ++ b) := by
  intro e he
  rcases List.mem_append.mp he with h | h
  · exact ha e h
  · exact hb e h

theorem cleanTrace_cons {e : FetchEvent} {tr : List FetchEvent}
    (he : e.isCancel = false) (h : cleanTrace tr) : cleanTrace (e :: tr) := by
  intro x hx
  rcases List.mem_cons.mp hx with h' | h'
  · exact h' ▸ he
  · exact h x h'

theorem cancelEnded_append {a b : List FetchEvent} (ha : cleanTrace a)
    (hb : cancelEnded b) : cancelEnded (a ++ b) := by
  obtain ⟨pre, e, rfl, he, hpre⟩ := hb
  exact ⟨a ++ pre, e, by simp, he, cleanTrace_append ha hpre⟩

theorem cancelEnded_single {e : FetchEvent} (he : e.isCancel = true) :
    cancelEnded [e] := ⟨[], e, rfl, he, fun _ h => absurd h (List.not_mem_nil _)⟩

theorem head_ne_of_append (p s t : String) (hp : p.data.head? = some 'f')
    (ht : t.data.head? = some 'o') : p ++ s ≠ t := by
  intro h
  have hd : (p ++ s).data = t.data := congrArg String.data h
  rw [String.data_append] at hd
  cases hx : p.data with
  | nil => rw [hx] at hp; cases hp
  | cons c cs =>
    rw [hx] at hd hp
    rw [← hd] at ht
    simp only [List.cons_append, List.head?_cons] at hp ht
    rw [hp] at ht
    cases ht

theorem wrapProjErr_ne_cancel (gid : Int) (e : String) : wrapProjErr gid e ≠ cancelMsg :=
  head_ne_of_append _ _ _ rfl rfl

theorem wrapSubErr_ne_cancel (gid : Int) (e : String) : wrapSubErr gid e ≠ cancelMsg :=
  head_ne_of_append _ _ _ rfl rfl

theorem wrapChildErr_ne_cancel (nm e : String) : wrapChildErr nm e ≠ cancelMsg :=
  head_ne_of_append _ _ _ rfl rfl

/-- The error recorded by `projStep` is never the cancellation error. -/
theorem projStep_fe {g : Group} {res : Except String (List Project)} {g1 : Group}
    {fe : Option String} (h : projStep g res = some (g1, fe)) : fe ≠ some cancelMsg := by
  rcases res with e | projs
  · simp only [projStep] at h
    split at h
    · cases h
    · obtain ⟨-, rfl⟩ := Prod.mk.injEq .. ▸ Option.some.injEq .. ▸ h
      simp only [Option.some.injEq] at h ⊢
      intro hc
      exact wrapProjErr_ne_cancel g.id e (Option.some.inj hc)
  · simp only [projStep, Option.some.injEq, Prod.mk.injEq] at h
    obtain ⟨-, rfl⟩ := h
    exact fun hc => Option.noConfusion hc

/-- Dichotomy for every terminating run of the populator: either a fetch was
cancelled, the returned error is exactly the cancellation error and the trace
ends at that fetch; or no fetch was cancelled and the returned error is not
the cancellation error. -/
theorem pop_dichotomy (remote : Remote) : ∀ n : Nat,
    (∀ g g' err tr, popNode remote n g = some (g', err, tr) →
      (err = some cancelMsg ∧ cancelEnded tr) ∨ (err ≠ some cancelMsg ∧ cleanTrace tr)) ∧
    (∀ gs kids cfe cancelled tr, popChildren remote n gs = some (kids, cfe, cancelled, tr) →
      (cancelled = true ∧ cancelEnded tr) ∨
      (cancelled = false ∧ cleanTrace tr ∧ cfe ≠ some cancelMsg)) := by
  intro n
  induction n with
  | zero =>
    constructor
    · intro g g' err tr h; cases h
    · intro gs kids cfe cancelled tr h
      cases gs with
      | nil =>
        simp only [popChildren, Option.some.injEq, Prod.mk.injEq] at h
        obtain ⟨-, rfl, rfl, rfl⟩ := h
        exact .inr ⟨rfl, cleanTrace_nil, fun hc => Option.noConfusion hc⟩
      | cons a as => cases h
  | succ n ih =>
    constructor
    · -- popNode at n+1
      intro g g' err tr h
      rw [popNode] at h
      rcases hps : projStep g (remote.projectsFor g.id) with - | ⟨g1, fe⟩ <;> simp only [hps] at h
      · -- cancellation from the projects fetch
        simp only [Option.some.injEq, Prod.mk.injEq] at h
        obtain ⟨-, rfl, rfl⟩ := h
        refine .inl ⟨rfl, cancelEnded_single ?_⟩
        have : remote.projectsFor g.id = .error cancelMsg := by
          rcases hp : remote.projectsFor g.id with e | l <;> rw [hp] at hps
          · simp only [projStep] at hps
            split at hps
            · next hce => rw [hce]
            · cases hps
          · cases hps
        rw [this]
        simp [FetchEvent.isCancel]
      · have hfe : fe ≠ some cancelMsg := projStep_fe hps
        have hev1 : (FetchEvent.projects g.id (remote.projectsFor g.id)).isCancel = false := by
          rcases hp : remote.projectsFor g.id with e | l <;> rw [hp] at hps
          · simp only [projStep] at hps
            split at hps
            · cases hps
            · next hce => simp [FetchEvent.isCancel, hce]
          · simp [FetchEvent.isCancel]
        rcases hs : remote.subgroupsFor g.id with e | subs <;> simp only [hs] at h
        · -- subgroups fetch errored
          by_cases hce : e = cancelMsg
          · rw [if_pos hce] at h
            simp only [Option.some.injEq, Prod.mk.injEq] at h
            obtain ⟨-, rfl, rfl⟩ := h
            refine .inl ⟨rfl, ⟨[_], _, rfl, ?_, ?_⟩⟩
            · simp [FetchEvent.isCancel, hce]
            · intro x hx
              rcases List.mem_singleton.mp hx with rfl
              exact hev1
          · rw [if_neg hce] at h
            simp only [Option.some.injEq, Prod.mk.injEq] at h
            obtain ⟨-, rfl, rfl⟩ := h
            refine .inr ⟨?_, ?_⟩
            · rcases fe with - | x
              · simpa using fun hc => wrapSubErr_ne_cancel g.id e hc
              · simpa using fun hc => hfe (by rw [hc])
            · refine cleanTrace_cons hev1 (cleanTrace_cons ?_ cleanTrace_nil)
              simp [FetchEvent.isCancel, hce]
        · -- subgroups ok: the child loop ran
          rcases hpc : popChildren remote n subs with - | ⟨kids, cfe, cancelled, trc⟩ <;>
            simp only [hpc] at h
          · cases h
          · have hev2 : (FetchEvent.subgroups g.id (Except.ok subs)).isCancel = false := by
              simp [FetchEvent.isCancel]
            rcases (ih.2 subs kids cfe cancelled trc hpc) with ⟨hc, hend⟩ | ⟨hc, hclean, hcfe⟩
            · rw [hc, if_pos rfl] at h
              simp only [Option.some.injEq, Prod.mk.injEq] at h
              obtain ⟨-, rfl, rfl⟩ := h
              exact .inl ⟨rfl, cancelEnded_append (cleanTrace_cons hev1
                (cleanTrace_cons hev2 cleanTrace_nil)) hend⟩
            · rw [hc, if_neg (by simp)] at h
              simp only [Option.some.injEq, Prod.mk.injEq] at h
              obtain ⟨-, rfl, rfl⟩ := h
              refine .inr ⟨?_, cleanTrace_cons hev1 (cleanTrace_cons hev2 hclean)⟩
              rcases fe with - | x
              · simpa [firstSome] using hcfe
              · simpa [firstSome] using fun hc => hfe (by rw [hc])
    · -- popChildren at n+1
      intro gs kids cfe cancelled tr h
      cases gs with
      | nil =>
        simp only [popChildren, Option.some.injEq, Prod.mk.injEq] at h
        obtain ⟨-, rfl, rfl, rfl⟩ := h
        exact .inr ⟨rfl, cleanTrace_nil, fun hc => Option.noConfusion hc⟩
      | cons g gs =>
        rw [popChildren] at h
        rcases hpn : popNode remote n g with - | ⟨g', err, trg⟩ <;> simp only [hpn] at h
        · cases h
        · rcases (ih.1 g g' err trg hpn) with ⟨hc, hend⟩ | ⟨hc, hclean⟩
          · rw [if_pos hc] at h
            simp only [Option.some.injEq, Prod.mk.injEq] at h
            obtain ⟨-, rfl, rfl, rfl⟩ := h
            exact .inl ⟨rfl, hend⟩
          · rw [if_neg hc] at h
            rcases hpc : popChildren remote n gs with - | ⟨rest, cfe2, cancelled2, tr2⟩ <;>
              simp only [hpc] at h
            · cases h
            · rcases (ih.2 gs rest cfe2 cancelled2 tr2 hpc) with ⟨hc2, hend2⟩ | ⟨hc2, hclean2, hcfe2⟩
              · rw [hc2] at h
                simp only [Option.some.injEq, Prod.mk.injEq] at h
                obtain ⟨-, rfl, rfl, rfl⟩ := h
                exact .inl ⟨rfl, cancelEnded_append hclean hend2⟩
              · rw [hc2] at h
                simp only [Option.some.injEq, Prod.mk.injEq] at h
                obtain ⟨-, rfl, rfl, rfl⟩ := h
                refine .inr ⟨rfl, cleanTrace_append hclean hclean2, ?_⟩
                rcases err with - | x
                · simpa [firstSome] using hcfe2
                · simpa [firstSome] using fun hcc => wrapChildErr_ne_cancel g'.name x hcc

@[simp] theorem Group.subgroups_setSubgroups (g : Group) (s : List Group) :
    (g.setSubgroups s).subgroups = s := by cases g; rfl

@[simp] theorem Group.projects_setSubgroups (g : Group) (s : List Group) :
    (g.setSubgroups s).projects = g.projects := by cases g; rfl

@[simp] theorem Group.subgroups_setProjects (g : Group) (p : List Project) :
    (g.setProjects p).subgroups = g.subgroups := by cases g; rfl

@[simp] theorem Group.projects_setProjects (g : Group) (p : List Project) :
    (g.setProjects p).projects = p := by cases g; rfl

@[simp] theorem Group.subgroups_sortChildren (g : Group) :
    g.sortChildren.subgroups = sortGroups g.subgroups := by cases g; rfl

@[simp] theorem Group.projects_sortChildren (g : Group) :
    g.sortChildren.projects = sortProjects g.projects := by cases g; rfl

/-- Inverting `firstSome a b = none`. -/
theorem firstSome_eq_none {a b : Option String} (h : firstSome a b = none) :
    a = none ∧ b = none := by
  rcases a with - | x
  · exact ⟨rfl, h⟩
  · simp [firstSome] at h

/-- Error-free runs sort every populated node. -/
theorem pop_sortedTree (remote : Remote) : ∀ n : Nat,
    (∀ g g' tr, popNode remote n g = some (g', none, tr) → SortedTree g') ∧
    (∀ gs kids tr, popChildren remote n gs = some (kids, none, false, tr) →
      ∀ k ∈ kids, SortedTree k) := by
  haveI : IsTotal Group leGroup := ⟨fun a b => lexLe_total _ _⟩
  haveI : IsTrans Group leGroup := ⟨fun _ _ _ => lexLe_trans _ _ _⟩
  haveI : IsTotal Project leProject := ⟨fun a b => lexLe_total _ _⟩
  haveI : IsTrans Project leProject := ⟨fun _ _ _ => lexLe_trans _ _ _⟩
  intro n
  induction n with
  | zero =>
    constructor
    · intro g g' tr h; cases h
    · intro gs kids tr h
      cases gs with
      | nil =>
        simp only [popChildren, Option.some.injEq, Prod.mk.injEq] at h
        obtain ⟨rfl, -⟩ := h
        intro k hk; exact absurd hk (List.not_mem_nil k)
      | cons a as => cases h
  | succ n ih =>
    constructor
    · intro g g' tr h
      rw [popNode] at h
      rcases hps : projStep g (remote.projectsFor g.id) with - | ⟨g1, fe⟩ <;> simp only [hps] at h
      · simp at h
      · rcases hs : remote.subgroupsFor g.id with e | subs <;> simp only [hs] at h
        · split at h <;> simp at h
        · rcases hpc : popChildren remote n subs with - | ⟨kids, cfe, cancelled, trc⟩ <;>
            simp only [hpc] at h
          · cases h
          · cases cancelled with
            | true => rw [if_pos rfl] at h; simp at h
            | false =>
              rw [if_neg (by simp)] at h
              simp only [Option.some.injEq, Prod.mk.injEq] at h
              obtain ⟨rfl, h2, -⟩ := h
              obtain ⟨hfe, hcfe⟩ := firstSome_eq_none h2
              refine SortedTree.intro _ ?_ ?_ ?_
              · simp only [Group.subgroups_sortChildren, Group.subgroups_setSubgroups]
                exact List.sorted_insertionSort leGroup kids
              · simp only [Group.projects_sortChildren, Group.projects_setSubgroups]
                exact List.sorted_insertionSort leProject g1.projects
              · simp only [Group.subgroups_sortChildren, Group.subgroups_setSubgroups]
                intro s hsm
                rw [sortGroups, (List.perm_insertionSort leGroup kids).mem_iff] at hsm
                exact ih.2 subs kids trc (by rw [hpc, hcfe]) s hsm
    · intro gs kids tr h
      cases gs with
      | nil =>
        simp only [popChildren, Option.some.injEq, Prod.mk.injEq] at h
        obtain ⟨rfl, -⟩ := h
        intro k hk; exact absurd hk (List.not_mem_nil k)
      | cons g gs =>
        rw [popChildren] at h
        rcases hpn : popNode remote n g with - | ⟨g', err, trg⟩ <;> simp only [hpn] at h
        · cases h
        · split at h
          · simp at h
          · rcases hpc : popChildren remote n gs with - | ⟨rest, cfe2, cancelled2, tr2⟩ <;>
              simp only [hpc] at h
            · cases h
            · simp only [Option.some.injEq, Prod.mk.injEq] at h
              obtain ⟨rfl, h2, h3, -⟩ := h
              obtain ⟨hw, hcfe2⟩ := firstSome_eq_none h2
              have herr : err = none := by
                rcases err with - | x
                · rfl
                · simp at hw
              intro k hk
              rcases List.mem_cons.mp hk with rfl | hk2
              · exact ih.1 g k trg (by rw [hpn, herr])
              · exact ih.2 gs rest tr2 (by rw [hpc, hcfe2, h3]) k hk2

/-- C1 (counterexample): on the return path where the subgroups fetch fails
with a non-cancellation error, the `Projects` slice is left exactly as
fetched — not non-decreasing under the case-folded comparison — refuting the
claim for that return path. -/
theorem populate_sort_counterexample :
    popNode remoteCx 1 gCxIn =
      some (Group.mk 1 none "g" "g" [] [⟨1, "g/b", "b"⟩, ⟨2, "g/a", "a"⟩],
        some (wrapSubErr 1 "boom"),
        [.projects 1 (.ok [⟨1, "g/b", "b"⟩, ⟨2, "g/a", "a"⟩]), .subgroups 1 (.error "boom")]) ∧
    ¬ List.Pairwise leProject
        (Group.mk 1 none "g" "g" [] [⟨1, "g/b", "b"⟩, ⟨2, "g/a", "a"⟩]).projects := by
  constructor
  · rfl
  · intro hp
    have := List.rel_of_pairwise_cons hp (List.mem_singleton.mpr rfl)
    revert this
    decide

/-- C1 (amended): on every run of `PopulateGroupHierarchy` that returns a nil
error, every populated node has `Subgroups` and `Projects` non-decreasing
under case-folded name comparison; and the sorting step is stable: any two
elements whose case-folded names are equal keep the relative order they had in
the slice being sorted (the last write before sorting). On early-return paths
(cancellation, or a failed subgroups fetch) the slices keep their previous
contents unsorted. -/
theorem populate_sort_invariant :
    (∀ (remote : Remote) (fuel : Nat) (g g' : Group) (tr : List FetchEvent),
      popNode remote fuel g = some (g', none, tr) → SortedTree g') ∧
    (∀ (l : List Group) (a b : Group), lowKey a.name = lowKey b.name →
      List.Sublist [a, b] l → List.Sublist [a, b] (sortGroups l)) ∧
    (∀ (l : List Project) (a b : Project), lowKey a.name = lowKey b.name →
      List.Sublist [a, b] l → List.Sublist [a, b] (sortProjects l)) := by
  refine ⟨fun remote fuel g g' tr h => (pop_sortedTree remote fuel).1 g g' tr h, ?_, ?_⟩
  · intro l a b hk hs
    have hab : leGroup a b := by
      unfold leGroup
      rw [hk]
      exact lexLe_refl _
    exact List.pair_sublist_insertionSort hab hs
  · intro l a b hk hs
    have hab : leProject a b := by
      unfold leProject
      rw [hk]
      exact lexLe_refl _
    exact List.pair_sublist_insertionSort hab hs

theorem populate_sort_invariant_witness :
    SortedTree gW1Out ∧
    List.Sublist [Group.mk 5 none "x/A" "A" [] [], Group.mk 6 none "x/a" "a" [] []]
      (sortGroups [Group.mk 7 none "x/b" "b" [] [],
        Group.mk 5 none "x/A" "A" [] [], Group.mk 6 none "x/a" "a" [] []]) ∧
    List.Sublist [(⟨5, "x/A", "A"⟩ : Project), ⟨6, "x/a", "a"⟩]
      (sortProjects [⟨7, "x/b", "b"⟩, ⟨5, "x/A", "A"⟩, ⟨6, "x/a", "a"⟩]) :=
  ⟨populate_sort_invariant.1 remoteW1 1 gW1In gW1Out
      [.projects 1 (.ok [⟨1, "g/B", "B"⟩, ⟨2, "g/a", "a"⟩]), .subgroups 1 (.ok [])] rfl,
    populate_sort_invariant.2.1 _ _ _ (by decide) ((List.Sublist.refl _).cons _),
    populate_sort_invariant.2.2 _ _ _ (by decide) ((List.Sublist.refl _).cons _)⟩

/-- C2: cancellation is absorbing and unwrapped. If any fetch during a
terminating hierarchy population returned the cancellation error, then the
top-level call returns exactly `cancelMsg` (never wrapped), and the cancelled
fetch is the final fetch of the whole run: no further node is visited. -/
theorem populate_cancel_absorbing (remote : Remote) (fuel : Nat) (g g' : Group)
    (err : Option String) (tr : List FetchEvent)
    (hrun : popNode remote fuel g = some (g', err, tr))
    (hc : ∃ e ∈ tr, e.isCancel = true) :
    err = some cancelMsg ∧
      ∃ pre e, tr = pre ++ [e] ∧ e.isCancel = true ∧ ∀ x ∈ pre, x.isCancel = false := by
  rcases (pop_dichotomy remote fuel).1 g g' err tr hrun with ⟨h1, h2⟩ | ⟨h1, h2⟩
  · exact ⟨h1, h2⟩
  · obtain ⟨e, he, hce⟩ := hc
    rw [h2 e he] at hce
    cases hce

theorem populate_cancel_absorbing_witness :
    (some cancelMsg : Option String) = some cancelMsg ∧
      ∃ pre e, trC2 = pre ++ [e] ∧ e.isCancel = true ∧ ∀ x ∈ pre, x.isCancel = false :=
  populate_cancel_absorbing remoteC2 3 rootC2
    (Group.mk 1 none "r" "r" [Group.zero, Group.zero] []) (some cancelMsg) trC2 rfl
    ⟨.projects 2 (.error cancelMsg), by simp [trC2], by decide⟩

/-- C3: partial failure does not halt sibling traversal: the returned tree
still contains the project and the surviving subgroup fully populated, and
the returned error is the first recorded (wrapped, non-nil) error. -/
theorem populate_partial_failure :
    popNode remoteC3 4 rootC3 =
      some (treeC3,
        some (wrapChildErr "a" (wrapSubErr 2 "boom")),
        [.projects 1 (.ok [⟨10, "r/p1", "p1"⟩]),
         .subgroups 1 (.ok [Group.mk 2 none "r/a" "a" [] [], Group.mk 3 none "r/b" "b" [] []]),
         .projects 2 (.ok []), .subgroups 2 (.error "boom"),
         .projects 3 (.ok [⟨30, "r/b/p3", "p3"⟩]), .subgroups 3 (.ok [])]) ∧
    (⟨10, "r/p1", "p1"⟩ : Project) ∈ treeC3.projects ∧
    Group.mk 3 none "r/b" "b" [] [⟨30, "r/b/p3", "p3"⟩] ∈ treeC3.subgroups ∧
    (Group.mk 3 none "r/b" "b" [] [⟨30, "r/b/p3", "p3"⟩]).projects = [⟨30, "r/b/p3", "p3"⟩] ∧
    some (wrapChildErr "a" (wrapSubErr 2 "boom")) ≠ (none : Option String) := by
  refine ⟨rfl, ?_, ?_, rfl, by simp⟩
  · simp [treeC3, Group.projects]
  · simp [treeC3, Group.subgroups]

/-- C4: `confirmLargeFetch` returns true with no side effect (no pause signal,
no confirmation call) whenever the count is at most 50; above 50 it invokes
the confirmation policy exactly once and returns its answer. The threshold is
fixed at 50. -/
theorem confirmLargeFetch_spec :
    largeFetchThreshold = 50 ∧
    (∀ (env : ConfirmEnv) (desc : String) (count : Int),
      count ≤ 50 → confirmLargeFetch env desc count = (true, [])) ∧
    (∀ (env : ConfirmEnv) (desc : String) (count : Int), 50 < count →
      (confirmLargeFetch env desc count).2.countP Ev.isConfirm = 1 ∧
        (confirmLargeFetch env desc count).1 = env.confirm (confirmPrompt desc count)) := by
  refine ⟨rfl, ?_, ?_⟩
  · intro env desc count h
    unfold confirmLargeFetch
    rw [if_pos (by rw [largeFetchThreshold]; exact h)]
  · intro env desc count h
    unfold confirmLargeFetch
    rw [if_neg (by rw [largeFetchThreshold]; omega)]
    cases hc : env.confirm (confirmPrompt desc count) <;>
      cases hp : env.hasPause <;> cases hs : env.pauseSendOk <;> cases hr : env.resumeSendOk <;>
        simp [hc, hp, hs, hr, Ev.isConfirm, List.countP_append, List.countP_cons]

theorem confirmLargeFetch_spec_witness :
    confirmLargeFetch envC4 "projects" 10 = (true, []) ∧
    ((confirmLargeFetch envC4 "projects" 120).2.countP Ev.isConfirm = 1 ∧
      (confirmLargeFetch envC4 "projects" 120).1 = envC4.confirm (confirmPrompt "projects" 120)) :=
  ⟨confirmLargeFetch_spec.2.1 envC4 "projects" 10 (by decide),
   confirmLargeFetch_spec.2.2 envC4 "projects" 120 (by decide)⟩

/-- One successful, non-empty page step of the loop. -/
theorem paginate_step_ok {α : Type} (fetch : Nat → Except String (List α)) (mkEv : Nat → Ev)
    (f page : Nat) (acc items : List α) (hf : fetch page = .ok items)
    (hne : items.isEmpty = false) :
    paginate fetch mkEv (f + 1) page acc =
      match paginate fetch mkEv f (page + 1) (acc ++ items) with
      | none => none
      | some (r, evs) => some (r, mkEv page :: evs) := by
  simp only [paginate, hf, hne]
  rfl

/-- The loop stops at the first empty page. -/
theorem paginate_step_empty {α : Type} (fetch : Nat → Except String (List α)) (mkEv : Nat → Ev)
    (f page : Nat) (acc : List α) (hf : fetch page = .ok []) :
    paginate fetch mkEv (f + 1) page acc = some (.ok acc, [mkEv page]) := by
  simp only [paginate, hf, List.isEmpty_nil]
  rfl

/-- C8: a fetcher receiving pages of sizes [100, 100, 37, 0] accumulates
exactly the 237 items in page order and issues exactly 4 page requests. -/
theorem paginate_termination {α : Type} (fetch : Nat → Except String (List α)) (mkEv : Nat → Ev)
    (l1 l2 l3 : List α)
    (h1 : fetch 1 = .ok l1) (hl1 : l1.length = 100)
    (h2 : fetch 2 = .ok l2) (hl2 : l2.length = 100)
    (h3 : fetch 3 = .ok l3) (hl3 : l3.length = 37)
    (h4 : fetch 4 = .ok []) (k : Nat) :
    paginate fetch mkEv (k + 4) 1 [] =
      some (.ok (l1 ++ l2 ++ l3), [mkEv 1, mkEv 2, mkEv 3, mkEv 4]) ∧
    (l1 ++ l2 ++ l3).length = 237 := by
  have e1 : l1.isEmpty = false := by cases l1 <;> simp_all
  have e2 : l2.isEmpty = false := by cases l2 <;> simp_all
  have e3 : l3.isEmpty = false := by cases l3 <;> simp_all
  constructor
  · have u4 : k + 4 = (k + 3) + 1 := rfl
    rw [u4, paginate_step_ok fetch mkEv (k + 3) 1 [] l1 h1 e1]
    have u3 : k + 3 = (k + 2) + 1 := rfl
    rw [u3, paginate_step_ok fetch mkEv (k + 2) 2 ([] ++ l1) l2 h2 e2]
    have u2 : k + 2 = (k + 1) + 1 := rfl
    rw [u2, paginate_step_ok fetch mkEv (k + 1) 3 (([] ++ l1) ++ l2) l3 h3 e3]
    rw [paginate_step_empty fetch mkEv k 4 ((([] ++ l1) ++ l2) ++ l3) h4]
    simp
  · simp [hl1, hl2, hl3]

theorem paginate_termination_witness :
    paginate fetchC8 (fun n => .page "projects" n) 4 1 [] =
      some (.ok (List.range 100 ++ (List.range 100).map (fun x => x + 100) ++
          (List.range 37).map (fun x => x + 200)),
        [.page "projects" 1, .page "projects" 2, .page "projects" 3, .page "projects" 4]) ∧
    (List.range 100 ++ (List.range 100).map (fun x => x + 100) ++
        (List.range 37).map (fun x => x + 200)).length = 237 :=
  paginate_termination fetchC8 (fun n => .page "projects" n) _ _ _
    rfl (by simp) rfl (by simp) rfl (by simp) rfl 0

/-- C7: the project search term is applied purely client-side: a search run
returns exactly the filter of the corresponding unfiltered run (same
environment, same requests and trace, path-with-namespace field only), and
the concrete example from the specification. -/
theorem getProjects_client_filter :
    (∀ (env : ProjEnv) (pfuel : Nat) (s : String) (allFlag : Bool)
        (l : List Project) (tr : List Ev),
      GetProjects env pfuel "" allFlag = some (.ok l, tr) → s ≠ "" →
      GetProjects env pfuel s allFlag = some (.ok (projFilter s l), tr)) ∧
    projFilter "teama"
        [⟨1, "teamA/app", "app"⟩, ⟨2, "teamB/App2", "App2"⟩, ⟨3, "x/teamAthing", "t"⟩] =
      [⟨1, "teamA/app", "app"⟩, ⟨3, "x/teamAthing", "t"⟩] := by
  constructor
  · intro env pfuel s allFlag l tr h hs
    unfold GetProjects at h ⊢
    rcases hg : projectsGate env allFlag with ⟨e | u, evs⟩ <;> simp only [hg] at h ⊢
    · simp at h
    · rcases hp : paginate env.pages (fun n => Ev.page "projects" n) pfuel 1 [] with - | ⟨r, pevs⟩ <;>
        simp only [hp] at h ⊢
      · cases h
      · rcases r with e2 | acc
        · dsimp only at h
          simp at h
        · dsimp only at h ⊢
          rw [if_neg (by simp)] at h
          rw [if_pos hs]
          simp only [Option.some.injEq, Prod.mk.injEq, Except.ok.injEq] at h
          obtain ⟨hacc, htr⟩ := h
          rw [hacc, htr]
  · decide

theorem getProjects_client_filter_witness :
    GetProjects envC7 2 "teama" false =
      some (.ok (projFilter "teama"
          [⟨1, "teamA/app", "app"⟩, ⟨2, "teamB/App2", "App2"⟩, ⟨3, "x/teamAthing", "t"⟩]),
        [.page "projects" 1, .page "projects" 2]) :=
  getProjects_client_filter.1 envC7 2 "teama" false
    [⟨1, "teamA/app", "app"⟩, ⟨2, "teamB/App2", "App2"⟩, ⟨3, "x/teamAthing", "t"⟩]
    [.page "projects" 1, .page "projects" 2] rfl (by decide)

/-- The confirmation gate never issues page requests. -/
theorem confirmLargeFetch_no_page (env : ConfirmEnv) (desc : String) (count : Int) :
    ∀ t n, Ev.page t n ∉ (confirmLargeFetch env desc count).2 := by
  intro t n
  unfold confirmLargeFetch
  split
  · simp
  · cases hc : env.confirm (confirmPrompt desc count) <;>
      cases hp : env.hasPause <;> cases hs : env.pauseSendOk <;> cases hr : env.resumeSendOk <;>
        simp [hc, hp, hs, hr]

/-- C5: with `allFlag` set, a successful probe of 120 (> 50) and a declining
confirmation policy, `GetGroups` returns the cancellation error and performs
zero per-page list requests: the pagination loop never starts. -/
theorem getGroups_decline_no_pagination
    (env : GroupsEnv) (pfuel rf : Nat) (s : String)
    (hprobe : env.probe s = .ok 120)
    (hconf : ∀ m, env.gate.confirm m = false) :
    ∃ tr, GetGroups env pfuel (rf + 1) s true = some (.error cancelMsg, tr) ∧
      ∀ t n, Ev.page t n ∉ tr := by
  have hb : (confirmLargeFetch env.gate (groupsDesc s) 120).1 = false := by
    rw [(confirmLargeFetch_spec.2.2 env.gate (groupsDesc s) 120 (by decide)).2, hconf]
  have hgate : groupsGate env true s =
      (.error cancelMsg,
        .probe ("groups " ++ s) :: (confirmLargeFetch env.gate (groupsDesc s) 120).2) := by
    unfold groupsGate
    rw [if_pos rfl, hprobe]
    dsimp only
    rcases hcf : confirmLargeFetch env.gate (groupsDesc s) 120 with ⟨b, cevs⟩
    rw [hcf] at hb
    simp only at hb
    subst hb
    rfl
  refine ⟨.probe ("groups " ++ s) :: (confirmLargeFetch env.gate (groupsDesc s) 120).2, ?_, ?_⟩
  · rw [GetGroups, hgate]
  · intro t n hmem
    rcases List.mem_cons.mp hmem with h | h
    · cases h
    · exact confirmLargeFetch_no_page env.gate (groupsDesc s) 120 t n h

theorem getGroups_decline_no_pagination_witness :
    ∃ tr, GetGroups envC5 1 (0 + 1) "" true = some (.error cancelMsg, tr) ∧
      ∀ t n, Ev.page t n ∉ tr :=
  getGroups_decline_no_pagination envC5 1 0 "" rfl (fun _ => rfl)

/-- C6: with a non-empty search term whose server-side search paginates to
completion with zero groups, `GetGroups` recurses with an empty search term
(same `allFlag`), filters the unfiltered result client-side by case-fold
substring on full path, propagates a cancellation from the recursive call
verbatim, and wraps any other error from it. -/
theorem getGroups_search_fallback
    (env : GroupsEnv) (pfuel rf : Nat) (s : String) (allFlag : Bool)
    (gevs pevs : List Ev)
    (hs : s ≠ "")
    (hgate : groupsGate env allFlag s = (.ok (), gevs))
    (hpag : paginate (env.pages s) (fun n => .page ("groups " ++ s) n) pfuel 1 [] =
      some (.ok [], pevs)) :
    (∀ gs tr2, GetGroups env pfuel rf "" allFlag = some (.ok gs, tr2) →
      GetGroups env pfuel (rf + 1) s allFlag =
        some (.ok (gs.filter (fun g => charsContains (lowKey g.fullPath) (lowKey s))),
          gevs ++ pevs ++ tr2)) ∧
    (∀ tr2, GetGroups env pfuel rf "" allFlag = some (.error cancelMsg, tr2) →
      GetGroups env pfuel (rf + 1) s allFlag = some (.error cancelMsg, gevs ++ pevs ++ tr2)) ∧
    (∀ e tr2, e ≠ cancelMsg → GetGroups env pfuel rf "" allFlag = some (.error e, tr2) →
      GetGroups env pfuel (rf + 1) s allFlag =
        some (.error (fallbackWrap e), gevs ++ pevs ++ tr2)) := by
  have hbody : ∀ inner,
      GetGroups env pfuel rf "" allFlag = inner →
      GetGroups env pfuel (rf + 1) s allFlag =
        match inner with
        | none => none
        | some (.error e, tr2) =>
          if e = cancelMsg then some (.error e, gevs ++ pevs ++ tr2)
          else some (.error (fallbackWrap e), gevs ++ pevs ++ tr2)
        | some (.ok gs, tr2) => some (.ok (groupFilter s gs), gevs ++ pevs ++ tr2) := by
    intro inner hinner
    rw [GetGroups, hgate]
    dsimp only
    rw [hpag]
    dsimp only
    rw [if_pos ⟨hs, rfl⟩, hinner]
  refine ⟨?_, ?_, ?_⟩
  · intro gs tr2 h
    rw [hbody _ h]
    dsimp only [groupFilter]
  · intro tr2 h
    rw [hbody _ h]
    dsimp only
    rw [if_pos rfl]
  · intro e tr2 he h
    rw [hbody _ h]
    dsimp only
    rw [if_neg he]

theorem getGroups_search_fallback_witness :
    GetGroups envC6 3 (1 + 1) "plat" false =
      some (.ok ([Group.mk 1 none "team/platform" "platform" [] [],
          Group.mk 2 none "team/other" "other" [] []].filter
            (fun g => charsContains (lowKey g.fullPath) (lowKey "plat"))),
        [] ++ [.page "groups plat" 1] ++
          [.page ("groups " ++ "") 1, .page ("groups " ++ "") 2]) :=
  (getGroups_search_fallback envC6 3 1 "plat" false [] [.page "groups plat" 1]
    (by decide) rfl rfl).1
    [Group.mk 1 none "team/platform" "platform" [] [],
     Group.mk 2 none "team/other" "other" [] []]
    [.page ("groups " ++ "") 1, .page ("groups " ++ "") 2] rfl

/-- Every event produced by the page loop is a page request for a page number
at or after the starting page. -/
theorem paginate_trace_shape {α : Type} (fetch : Nat → Except String (List α)) (mkEv : Nat → Ev) :
    ∀ (f p : Nat) (acc : List α) (r : Except String (List α)) (evs : List Ev),
      paginate fetch mkEv f p acc = some (r, evs) → ∀ e ∈ evs, ∃ k, p ≤ k ∧ e = mkEv k := by
  intro f
  induction f with
  | zero => intro p acc r evs h; cases h
  | succ f ih =>
    intro p acc r evs h
    rw [paginate] at h
    rcases hf : fetch p with e | items <;> simp only [hf] at h
    · simp only [Option.some.injEq, Prod.mk.injEq] at h
      obtain ⟨-, rfl⟩ := h
      intro e he
      rcases List.mem_singleton.mp he with rfl
      exact ⟨p, le_refl p, rfl⟩
    · split at h
      · simp only [Option.some.injEq, Prod.mk.injEq] at h
        obtain ⟨-, rfl⟩ := h
        intro e he
        rcases List.mem_singleton.mp he with rfl
        exact ⟨p, le_refl p, rfl⟩
      · rcases hrec : paginate fetch mkEv f (p + 1) (acc ++ items) with - | ⟨r2, evs2⟩ <;>
          simp only [hrec] at h
        · cases h
        · simp only [Option.some.injEq, Prod.mk.injEq] at h
          obtain ⟨rfl, rfl⟩ := h
          intro e he
          rcases List.mem_cons.mp he with rfl | he2
          · exact ⟨p, le_refl p, rfl⟩
          · obtain ⟨k, hk, rfl⟩ := ih (p + 1) (acc ++ items) r2 evs2 hrec e he2
            exact ⟨k, by omega, rfl⟩

/-- The page loop never invokes the confirmation policy. -/
theorem paginate_no_confirm {α : Type} (fetch : Nat → Except String (List α)) (tag : String)
    (f p : Nat) (acc : List α) (r : Except String (List α)) (evs : List Ev)
    (h : paginate fetch (fun n => .page tag n) f p acc = some (r, evs)) :
    ∀ m, Ev.confirmCall m ∉ evs := by
  intro m hm
  obtain ⟨k, -, hk⟩ := paginate_trace_shape fetch _ f p acc r evs h _ hm
  exact Ev.noConfusion hk

/-- C9: if the count probe fails, every fetcher that runs one proceeds to
paginate without invoking the confirmation policy, and its result depends
only on the page requests (two environments that fail the probe differently
and have different confirmation policies but the same pages give identical
results). Stated for `GetProjects`, `GetGroups` (all probes failing),
`getSubgroups` and `getProjectsForGroup`. -/
theorem probe_failure_downgraded :
    (∀ (env env2 : ProjEnv) (pfuel : Nat) (s : String) (e e2 : String),
      env.probe = .error e → env2.probe = .error e2 → env.pages = env2.pages →
      GetProjects env pfuel s true = GetProjects env2 pfuel s true ∧
      ∀ r tr, GetProjects env pfuel s true = some (r, tr) → ∀ m, Ev.confirmCall m ∉ tr) ∧
    (∀ (env env2 : GroupsEnv) (pfuel rf : Nat) (s : String),
      (∀ t, ∃ e, env.probe t = .error e) → (∀ t, ∃ e, env2.probe t = .error e) →
      env.pages = env2.pages →
      GetGroups env pfuel rf s true = GetGroups env2 pfuel rf s true ∧
      ∀ r tr, GetGroups env pfuel rf s true = some (r, tr) → ∀ m, Ev.confirmCall m ∉ tr) ∧
    (∀ (env env2 : ScopedEnv Group) (gid : Int) (pfuel : Nat) (allFlag : Bool) (e e2 : String),
      env.probe = .error e → env2.probe = .error e2 → env.pages = env2.pages →
      getSubgroups env gid pfuel allFlag = getSubgroups env2 gid pfuel allFlag ∧
      ∀ r tr, getSubgroups env gid pfuel allFlag = some (r, tr) →
        ∀ m, Ev.confirmCall m ∉ tr) ∧
    (∀ (env env2 : ScopedEnv Project) (gid : Int) (pfuel : Nat) (allFlag : Bool) (e e2 : String),
      env.probe = .error e → env2.probe = .error e2 → env.pages = env2.pages →
      getProjectsForGroup env gid pfuel allFlag = getProjectsForGroup env2 gid pfuel allFlag ∧
      ∀ r tr, getProjectsForGroup env gid pfuel allFlag = some (r, tr) →
        ∀ m, Ev.confirmCall m ∉ tr) := by
  refine ⟨?_, ?_, ?_, ?_⟩
  · -- GetProjects
    intro env env2 pfuel s e e2 he he2 hpages
    have hg1 : projectsGate env true = (.ok (), [.probe "projects"]) := by
      unfold projectsGate
      rw [if_pos rfl, he]
    have hg2 : projectsGate env2 true = (.ok (), [.probe "projects"]) := by
      unfold projectsGate
      rw [if_pos rfl, he2]
    constructor
    · unfold GetProjects
      rw [hg1, hg2, hpages]
    · intro r tr h m hm
      unfold GetProjects at h
      rw [hg1] at h
      dsimp only at h
      rcases hp : paginate env.pages (fun n => Ev.page "projects" n) pfuel 1 [] with
        - | ⟨rr, pevs⟩ <;> simp only [hp] at h
      · cases h
      · have hpnc := paginate_no_confirm env.pages "projects" pfuel 1 [] rr pevs hp
        rcases rr with e3 | acc
        · dsimp only at h
          simp only [Option.some.injEq, Prod.mk.injEq] at h
          obtain ⟨-, rfl⟩ := h
          rcases List.mem_cons.mp hm with hh | hh
          · exact Ev.noConfusion hh
          · exact hpnc m hh
        · dsimp only at h
          split at h <;>
            · simp only [Option.some.injEq, Prod.mk.injEq] at h
              obtain ⟨-, rfl⟩ := h
              rcases List.mem_cons.mp hm with hh | hh
              · exact Ev.noConfusion hh
              · exact hpnc m hh
  · -- GetGroups (with all probes failing)
    intro env env2 pfuel rf
    induction rf with
    | zero =>
      intro s h1 h2 hpages
      exact ⟨rfl, fun r tr h => by cases h⟩
    | succ rf ih =>
      intro s h1 h2 hpages
      obtain ⟨es, hes⟩ := h1 s
      obtain ⟨es2, hes2⟩ := h2 s
      have hg1 : groupsGate env true s = (.ok (), [.probe ("groups " ++ s)]) := by
        unfold groupsGate
        rw [if_pos rfl, hes]
      have hg2 : groupsGate env2 true s = (.ok (), [.probe ("groups " ++ s)]) := by
        unfold groupsGate
        rw [if_pos rfl, hes2]
      constructor
      · rw [GetGroups, GetGroups, hg1, hg2]
        dsimp only
        rw [hpages]
        rcases hp : paginate (env2.pages s) (fun n => Ev.page ("groups " ++ s) n) pfuel 1 [] with
          - | ⟨rr, pevs⟩
        · rfl
        · rcases rr with e3 | acc
          · rfl
          · dsimp only
            by_cases hcond : s ≠ "" ∧ acc.isEmpty = true
            · rw [if_pos hcond, if_pos hcond, (ih "" h1 h2 hpages).1]
            · rw [if_neg hcond, if_neg hcond]
      · intro r tr h m hm
        rw [GetGroups, hg1] at h
        dsimp only at h
        rcases hp : paginate (env.pages s) (fun n => Ev.page ("groups " ++ s) n) pfuel 1 [] with
          - | ⟨rr, pevs⟩ <;> simp only [hp] at h
        · cases h
        · have hpnc := paginate_no_confirm (env.pages s) ("groups " ++ s) pfuel 1 [] rr pevs hp
          rcases rr with e3 | acc
          · dsimp only at h
            simp only [Option.some.injEq, Prod.mk.injEq] at h
            obtain ⟨-, rfl⟩ := h
            rcases List.mem_cons.mp hm with hh | hh
            · exact Ev.noConfusion hh
            · exact hpnc m hh
          · dsimp only at h
            split at h
            · rcases hrec : GetGroups env pfuel rf "" true with - | ⟨r2, tr2⟩ <;>
                simp only [hrec] at h
              · cases h
              · have hinner := (ih "" h1 h2 hpages).2 r2 tr2 hrec m
                rcases r2 with e4 | gs
                · dsimp only at h
                  split at h <;>
                    · simp only [Option.some.injEq, Prod.mk.injEq] at h
                      obtain ⟨-, rfl⟩ := h
                      rcases List.mem_append.mp hm with hh | hh
                      · rcases List.mem_append.mp hh with hh2 | hh2
                        · exact Ev.noConfusion (List.mem_singleton.mp hh2)
                        · exact hpnc m hh2
                      · exact hinner hh
                · dsimp only at h
                  simp only [Option.some.injEq, Prod.mk.injEq] at h
                  obtain ⟨-, rfl⟩ := h
                  rcases List.mem_append.mp hm with hh | hh
                  · rcases List.mem_append.mp hh with hh2 | hh2
                    · exact Ev.noConfusion (List.mem_singleton.mp hh2)
                    · exact hpnc m hh2
                  · exact hinner hh
            · simp only [Option.some.injEq, Prod.mk.injEq] at h
              obtain ⟨-, rfl⟩ := h
              rcases List.mem_cons.mp hm with hh | hh
              · exact Ev.noConfusion hh
              · exact hpnc m hh
  · -- getSubgroups
    intro env env2 gid pfuel allFlag e e2 he he2 hpages
    constructor
    · unfold getSubgroups
      rw [he, he2, hpages]
    · intro r tr h m hm
      unfold getSubgroups at h
      rw [he] at h
      dsimp only at h
      rcases hp : paginate env.pages (fun n => Ev.page ("subgroups " ++ toString gid) n)
          pfuel 1 [] with - | ⟨rr, pevs⟩ <;> simp only [hp] at h
      · cases h
      · have hpnc := paginate_no_confirm env.pages ("subgroups " ++ toString gid)
          pfuel 1 [] rr pevs hp
        rcases rr with e3 | acc <;>
          · dsimp only at h
            simp only [Option.some.injEq, Prod.mk.injEq] at h
            obtain ⟨-, rfl⟩ := h
            rcases List.mem_cons.mp hm with hh | hh
            · exact Ev.noConfusion hh
            · exact hpnc m hh
  · -- getProjectsForGroup
    intro env env2 gid pfuel allFlag e e2 he he2 hpages
    constructor
    · unfold getProjectsForGroup
      rw [he, he2, hpages]
    · intro r tr h m hm
      unfold getProjectsForGroup at h
      rw [he] at h
      dsimp only at h
      rcases hp : paginate env.pages (fun n => Ev.page ("groupprojects " ++ toString gid) n)
          pfuel 1 [] with - | ⟨rr, pevs⟩ <;> simp only [hp] at h
      · cases h
      · have hpnc := paginate_no_confirm env.pages ("groupprojects " ++ toString gid)
          pfuel 1 [] rr pevs hp
        rcases rr with e3 | acc <;>
          · dsimp only at h
            simp only [Option.some.injEq, Prod.mk.injEq] at h
            obtain ⟨-, rfl⟩ := h
            rcases List.mem_cons.mp hm with hh | hh
            · exact Ev.noConfusion hh
            · exact hpnc m hh

theorem probe_failure_downgraded_witness :
    GetProjects envC9a 2 "" true = GetProjects envC9b 2 "" true ∧
    GetGroups envC9c 2 1 "" true = GetGroups envC9d 2 1 "" true ∧
    getSubgroups envC9e 7 1 true = getSubgroups envC9f 7 1 true ∧
    getProjectsForGroup envC9g 7 1 true = getProjectsForGroup envC9h 7 1 true :=
  ⟨(probe_failure_downgraded.1 envC9a envC9b 2 "" "probe down" "other failure" rfl rfl rfl).1,
   (probe_failure_downgraded.2.1 envC9c envC9d 2 1 ""
      (fun _ => ⟨"down", rfl⟩) (fun _ => ⟨"askew", rfl⟩) rfl).1,
   (probe_failure_downgraded.2.2.1 envC9e envC9f 7 1 true "down" "askew" rfl rfl rfl).1,
   (probe_failure_downgraded.2.2.2 envC9g envC9h 7 1 true "down" "askew" rfl rfl rfl).1⟩

/-- The prologue of `GetGroups` never issues page requests. -/
theorem groupsGate_no_page (env : GroupsEnv) (allFlag : Bool) (s : String) :
    ∀ t n, Ev.page t n ∉ (groupsGate env allFlag s).2 := by
  intro t n
  unfold groupsGate
  split
  · rcases hpr : env.probe s with e | total
    · simp
    · dsimp only
      rcases hcf : confirmLargeFetch env.gate (groupsDesc s) total with ⟨b, cevs⟩
      have hnp := confirmLargeFetch_no_page env.gate (groupsDesc s) total t n
      rw [hcf] at hnp
      cases b <;>
        · dsimp only
          intro hm
          rcases List.mem_cons.mp hm with hh | hh
          · exact Ev.noConfusion hh
          · exact hnp hh
  · simp

theorem isPageOne_page (t : String) (k : Nat) (hk : k ≠ 1) :
    Ev.isPageOne (.page t k) = false := by
  cases k with
  | zero => rfl
  | succ k2 =>
    cases k2 with
    | zero => exact absurd rfl hk
    | succ k3 => rfl

/-- A page loop started at page 2 or later issues no page-1 request. -/
theorem paginate_no_pageOne {α : Type} (fetch : Nat → Except String (List α)) (tag : String)
    (f p : Nat) (acc : List α) (r : Except String (List α)) (evs : List Ev) (hp : 2 ≤ p)
    (h : paginate fetch (fun n => .page tag n) f p acc = some (r, evs)) :
    evs.countP Ev.isPageOne = 0 := by
  rw [List.countP_eq_zero]
  intro e he
  obtain ⟨k, hk, rfl⟩ := paginate_trace_shape fetch _ f p acc r evs h e he
  rw [isPageOne_page tag k (by omega)]
  simp

/-- A page loop started at page 1 issues at most one page-1 request. -/
theorem paginate_pageOne_le {α : Type} (fetch : Nat → Except String (List α)) (tag : String)
    (f : Nat) (acc : List α) (r : Except String (List α)) (evs : List Ev)
    (h : paginate fetch (fun n => .page tag n) f 1 acc = some (r, evs)) :
    evs.countP Ev.isPageOne ≤ 1 := by
  cases f with
  | zero => cases h
  | succ f =>
    rw [paginate] at h
    rcases hf : fetch 1 with e | items <;> simp only [hf] at h
    · simp only [Option.some.injEq, Prod.mk.injEq] at h
      obtain ⟨-, rfl⟩ := h
      simp [List.countP_cons, Ev.isPageOne]
    · split at h
      · simp only [Option.some.injEq, Prod.mk.injEq] at h
        obtain ⟨-, rfl⟩ := h
        simp [List.countP_cons, Ev.isPageOne]
      · rcases hrec : paginate fetch (fun n => Ev.page tag n) f 2 (acc ++ items) with
          - | ⟨r2, evs2⟩ <;> simp only [hrec] at h
        · cases h
        · simp only [Option.some.injEq, Prod.mk.injEq] at h
          obtain ⟨rfl, rfl⟩ := h
          have h0 := paginate_no_pageOne fetch tag f 2 (acc ++ items) r2 evs2 (le_refl 2) hrec
          simp [List.countP_cons, h0, Ev.isPageOne]

theorem countP_pageOne_gate (env : GroupsEnv) (allFlag : Bool) (s : String) (gevs : List Ev)
    (u : Except String Unit) (hg : groupsGate env allFlag s = (u, gevs)) :
    gevs.countP Ev.isPageOne = 0 := by
  rw [List.countP_eq_zero]
  intro a ha
  have hnp := groupsGate_no_page env allFlag s
  rw [hg] at hnp
  cases a with
  | page t n => exact absurd ha (hnp t n)
  | probe t => simp [Ev.isPageOne]
  | pauseSig => simp [Ev.isPageOne]
  | confirmCall m => simp [Ev.isPageOne]
  | resumeSig => simp [Ev.isPageOne]

/-- An empty-search run of `GetGroups` paginates at most once. -/
theorem getGroups_empty_pageOne (env : GroupsEnv) (pfuel : Nat) (allFlag : Bool) :
    ∀ (rf : Nat) (r : Except String (List Group)) (tr : List Ev),
      GetGroups env pfuel rf "" allFlag = some (r, tr) → tr.countP Ev.isPageOne ≤ 1 := by
  intro rf r tr h
  cases rf with
  | zero => cases h
  | succ rf =>
    rw [GetGroups] at h
    rcases hg : groupsGate env allFlag "" with ⟨e | u, gevs⟩ <;> simp only [hg] at h
    · simp only [Option.some.injEq, Prod.mk.injEq] at h
      obtain ⟨-, rfl⟩ := h
      rw [countP_pageOne_gate env allFlag "" gevs _ hg]
      omega
    · rcases hp : paginate (env.pages "") (fun n => Ev.page ("groups " ++ "") n) pfuel 1 [] with
        - | ⟨rr, pevs⟩ <;> simp only [hp] at h
      · cases h
      · have hle := paginate_pageOne_le (env.pages "") ("groups " ++ "") pfuel [] rr pevs hp
        have hg0 := countP_pageOne_gate env allFlag "" gevs _ hg
        rcases rr with e2 | acc
        · dsimp only at h
          simp only [Option.some.injEq, Prod.mk.injEq] at h
          obtain ⟨-, rfl⟩ := h
          rw [List.countP_append, hg0]
          omega
        · dsimp only at h
          rw [if_neg (by simp)] at h
          simp only [Option.some.injEq, Prod.mk.injEq] at h
          obtain ⟨-, rfl⟩ := h
          rw [List.countP_append, hg0]
          omega

/-- Any run of `GetGroups` paginates at most twice (outer round plus at most
one fallback round). -/
theorem getGroups_pageOne_le_two (env : GroupsEnv) (pfuel : Nat) :
    ∀ (rf : Nat) (s : String) (allFlag : Bool) (r : Except String (List Group)) (tr : List Ev),
      GetGroups env pfuel rf s allFlag = some (r, tr) → tr.countP Ev.isPageOne ≤ 2 := by
  intro rf s allFlag r tr h
  cases rf with
  | zero => cases h
  | succ rf =>
    rw [GetGroups] at h
    rcases hg : groupsGate env allFlag s with ⟨e | u, gevs⟩ <;> simp only [hg] at h
    · simp only [Option.some.injEq, Prod.mk.injEq] at h
      obtain ⟨-, rfl⟩ := h
      rw [countP_pageOne_gate env allFlag s gevs _ hg]
      omega
    · rcases hp : paginate (env.pages s) (fun n => Ev.page ("groups " ++ s) n) pfuel 1 [] with
        - | ⟨rr, pevs⟩ <;> simp only [hp] at h
      · cases h
      · have hle := paginate_pageOne_le (env.pages s) ("groups " ++ s) pfuel [] rr pevs hp
        have hg0 := countP_pageOne_gate env allFlag s gevs _ hg
        rcases rr with e2 | acc
        · dsimp only at h
          simp only [Option.some.injEq, Prod.mk.injEq] at h
          obtain ⟨-, rfl⟩ := h
          rw [List.countP_append, hg0]
          omega
        · dsimp only at h
          split at h
          · rcases hrec : GetGroups env pfuel rf "" allFlag with - | ⟨r2, tr2⟩ <;>
              simp only [hrec] at h
            · cases h
            · have hin := getGroups_empty_pageOne env pfuel allFlag rf r2 tr2 hrec
              rcases r2 with e4 | gs
              · dsimp only at h
                split at h <;>
                  · simp only [Option.some.injEq, Prod.mk.injEq] at h
                    obtain ⟨-, rfl⟩ := h
                    rw [List.countP_append, List.countP_append, hg0]
                    omega
              · dsimp only at h
                simp only [Option.some.injEq, Prod.mk.injEq] at h
                obtain ⟨-, rfl⟩ := h
                rw [List.countP_append, List.countP_append, hg0]
                omega
          · simp only [Option.some.injEq, Prod.mk.injEq] at h
            obtain ⟨-, rfl⟩ := h
            rw [List.countP_append, hg0]
            omega

/-- With an empty search term the fallback branch is unreachable, so the
recursion fuel beyond the first unit is irrelevant. -/
theorem getGroups_fuel_empty (env : GroupsEnv) (pfuel : Nat) (allFlag : Bool) (rf1 rf2 : Nat) :
    GetGroups env pfuel (rf1 + 1) "" allFlag = GetGroups env pfuel (rf2 + 1) "" allFlag := by
  conv_lhs => rw [GetGroups]
  conv_rhs => rw [GetGroups]
  rcases hg : groupsGate env allFlag "" with ⟨e | u, gevs⟩
  · rfl
  · dsimp only
    rcases hp : paginate (env.pages "") (fun n => Ev.page ("groups " ++ "") n) pfuel 1 [] with
      - | ⟨rr, pevs⟩
    · rfl
    · rcases rr with e2 | acc
      · rfl
      · dsimp only
        rw [if_neg (by simp), if_neg (by simp)]

theorem getGroups_fuel_two (env : GroupsEnv) (pfuel : Nat) (rf1 rf2 : Nat) (s : String)
    (allFlag : Bool) :
    GetGroups env pfuel (rf1 + 1 + 1) s allFlag = GetGroups env pfuel (rf2 + 1 + 1) s allFlag := by
  conv_lhs => rw [GetGroups]
  conv_rhs => rw [GetGroups]
  rcases hg : groupsGate env allFlag s with ⟨e | u, gevs⟩
  · rfl
  · dsimp only
    rcases hp : paginate (env.pages s) (fun n => Ev.page ("groups " ++ s) n) pfuel 1 [] with
      - | ⟨rr, pevs⟩
    · rfl
    · rcases rr with e2 | acc
      · rfl
      · dsimp only
        by_cases hcond : s ≠ "" ∧ acc.isEmpty = true
        · rw [if_pos hcond, if_pos hcond, getGroups_fuel_empty env pfuel allFlag rf1 rf2]
        · rw [if_neg hcond, if_neg hcond]

/-- C10: the group-search fallback recursion is bounded at depth one: under an
empty search term the fallback branch is unreachable (any recursion fuel
beyond one unit gives the same result), recursion fuel beyond two units never
changes any result, and every terminating run starts at most two pagination
rounds. -/
theorem getGroups_fallback_depth_one :
    (∀ (env : GroupsEnv) (pfuel rf1 rf2 : Nat) (allFlag : Bool),
      GetGroups env pfuel (rf1 + 1) "" allFlag = GetGroups env pfuel (rf2 + 1) "" allFlag) ∧
    (∀ (env : GroupsEnv) (pfuel rf : Nat) (s : String) (allFlag : Bool),
      GetGroups env pfuel (rf + 2) s allFlag = GetGroups env pfuel 2 s allFlag) ∧
    (∀ (env : GroupsEnv) (pfuel rf : Nat) (s : String) (allFlag : Bool)
        (r : Except String (List Group)) (tr : List Ev),
      GetGroups env pfuel rf s allFlag = some (r, tr) → tr.countP Ev.isPageOne ≤ 2) :=
  ⟨fun env pfuel rf1 rf2 allFlag => getGroups_fuel_empty env pfuel allFlag rf1 rf2,
   fun env pfuel rf s allFlag => getGroups_fuel_two env pfuel rf 0 s allFlag,
   fun env pfuel rf s allFlag r tr h => getGroups_pageOne_le_two env pfuel rf s allFlag r tr h⟩

theorem getGroups_fallback_depth_one_witness :
    GetGroups envC10 3 (4 + 1) "" false = GetGroups envC10 3 (0 + 1) "" false ∧
    GetGroups envC10 3 (1 + 2) "q" false = GetGroups envC10 3 2 "q" false ∧
    ([Ev.page "groups q" 1, Ev.page "groups " 1, Ev.page "groups " 2].countP Ev.isPageOne) ≤ 2 :=
  ⟨getGroups_fallback_depth_one.1 envC10 3 4 0 false,
   getGroups_fallback_depth_one.2.1 envC10 3 1 "q" false,
   getGroups_fallback_depth_one.2.2 envC10 3 2 "q" false
     (.ok [Group.mk 1 none "q/x" "x" [] []])
     [Ev.page "groups q" 1, Ev.page "groups " 1, Ev.page "groups " 2] rfl⟩

end Glids
